import Mathlib

/-!
# CloverUI: android/app/src/main/cpp/native-lib.cpp

A shallow embedding of the three JNI entry points of the native llama bridge
(`nativeLoadModel`, `nativeStop`, `nativeGenerate`) and theorems about them.

Modelling conventions.

* The four file-level pointers and the atomic flag are the fields of `Session`;
  a null pointer is `none`.
* The inference engine (llama.cpp), the JVM and the clock are external.  Their
  answers are the fields of `Engine`, an oracle that the theorems quantify over.
  The answer of `llama_decode` may depend on every batch fed earlier in the call,
  the answer of `llama_sampler_sample` on those batches and on the tokens sampled
  earlier, so that every behaviour of a stateful engine is covered.
* C `int` values are integers (`Int`).  The context sizing of lines 96-102 adds
  values that the caller chooses freely (`max_tokens` is a `jint`), so its two
  additions are taken modulo `2 ^ 32` into the signed 32 bit range (`wrapInt32`),
  as the two's complement target computes them.  The cursors of the two loops are
  counted over the integers: the statements about the loops describe the runs in
  which `n_tokens + n_decode` stays in the 32 bit range.
* The two `while` loops are recursions on a fuel argument and return `none` when
  the fuel runs out before the loop condition turns false.  `nativeGenerate`
  passes fuel that is proved sufficient (`nativeGenerate_total`).
-/

namespace CloverLlama

/-- The type `llama_token` (an `int32_t`). -/
abbrev Token := Int

/-- One `char` of a `std::string` or of a `jbyteArray`. -/
abbrev Byte := UInt8

/-- An engine pointer that is not null. -/
abbrev Handle := Nat

/-- One slot `i` of a `llama_batch`: `token[i]`, `pos[i]`, `n_seq_id[i]`,
`seq_id[i][0]`, `logits[i]`. -/
structure BatchEntry where
  token : Token
  pos : Int
  n_seq_id : Int
  seq_id : Int
  logits : Bool
deriving DecidableEq

/-- A `llama_batch` as the list of its `n_tokens` slots. -/
abbrev Batch := List BatchEntry

/-- The fields of `llama_context_params` that the code sets (lines 104-111). -/
structure ContextParams where
  n_ctx : Int
  n_batch : Int
  n_threads : Int
  n_threads_batch : Int
deriving DecidableEq

/-- The file-level state of lines 11-20, together with the log of the handles
passed to `llama_free`, `llama_model_free` and `llama_sampler_free`. -/
structure Session where
  model : Option Handle
  ctx : Option Handle
  smpl : Option Handle
  vocab : Option Handle
  cancel_generation : Bool
  freed : List Handle
deriving DecidableEq

/-- The external collaborators of the file, as an oracle.

* `llama_tokenize text n_tokens_max` gives the returned count and the contents of
  the token buffer afterwards.
* `llama_decode fedBefore batch` is `true` when the call returns `0`.
* `llama_sampler_sample fedBefore sampledBefore` is the sampled token.
* `llama_token_to_piece id` gives the returned length `n` and the contents of `buf`.
* `onTokenMethod` tells whether `GetMethodID` found `onTokenGenerated`
  (no pending exception), that is whether `onTokenMethod != nullptr`.
* `stop_called k` tells whether another thread ran `nativeStop` after the reset of
  line 171 (for `k = 0`) or after the previous poll, and before the poll of
  line 187 that follows the sampling of `k` tokens.
* `stats_buf n_tokens gen_count` is what `snprintf` leaves in `stats_buf`
  (line 226); it depends on the clock and on floating point arithmetic. -/
structure Engine where
  llama_model_load_from_file : String → Option Handle
  llama_model_get_vocab : Handle → Option Handle
  llama_model_meta_val_str : Handle → Int × String
  llama_tokenize : String → Int → Int × (Nat → Token)
  llama_init_from_model : Handle → ContextParams → Option Handle
  llama_sampler_chain_init : Option Handle
  llama_decode : List Batch → Batch → Bool
  llama_sampler_sample : List Batch → List Token → Token
  llama_vocab_is_eog : Token → Bool
  llama_token_to_piece : Token → Int × (Nat → Byte)
  onTokenMethod : Bool
  stop_called : Nat → Bool
  stats_buf : Int → Int → List Byte

/-! ## nativeLoadModel (lines 22-60) and nativeStop (lines 63-66) -/

/-- Lines 30-32: free and null `ctx`, then `model`, then `smpl` (`vocab` is not
touched). -/
def releaseHandles (s : Session) : Session :=
  let s1 := match s.ctx with
    | some c => { s with ctx := none, freed := s.freed ++ [c] }
    | none => s
  let s2 := match s1.model with
    | some m => { s1 with model := none, freed := s1.freed ++ [m] }
    | none => s1
  match s2.smpl with
  | some p => { s2 with smpl := none, freed := s2.freed ++ [p] }
  | none => s2

/-- The function `Java_com_example_app_LlamaPlugin_nativeLoadModel`: the session
afterwards and the returned status string. -/
def nativeLoadModel (env : Engine) (s : Session) (model_path : String) : Session × String :=
  let s3 := releaseHandles s
  let s4 := { s3 with model := env.llama_model_load_from_file model_path }
  match s4.model with
  | none => (s4, "Error: 模型讀取失敗")
  | some m =>
    let s5 := { s4 with vocab := env.llama_model_get_vocab m }
    let res := (env.llama_model_meta_val_str m).1
    let arch_buf := (env.llama_model_meta_val_str m).2
    let arch_str := if res ≥ 0 then arch_buf else "Unknown"
    (s5, "Success|" ++ arch_str)

/-- The function `Java_com_example_app_LlamaPlugin_nativeStop`. -/
def nativeStop (s : Session) : Session :=
  { s with cancel_generation := true }

/-! ## nativeGenerate (lines 68-235) -/

/-- Lines 84-89: tokenize into a buffer of `length + 16` slots, and once more
into a buffer of `-n_tokens` slots when the first call returns a negative count. -/
def tokenizePrompt (env : Engine) (full_prompt : String) : Int × (Nat → Token) :=
  let len : Int := (full_prompt.utf8ByteSize : Int)
  let first := env.llama_tokenize full_prompt (len + 16)
  if first.1 < 0 then env.llama_tokenize full_prompt (-first.1) else first

/-- The value of a 32 bit `int` that holds the integer `x` modulo `2 ^ 32`: the
result of an `int` addition whose exact sum is `x`. -/
def wrapInt32 (x : Int) : Int :=
  (x + 2147483648) % 4294967296 - 2147483648

/-- Lines 96-102: the value of `context_size` that becomes `cparams.n_ctx`.  The
sums `n_tokens + max_tokens` and `n_tokens + max_tokens + 128` are `int` additions. -/
def contextSize (context_size n_tokens max_tokens : Int) : Int :=
  let context_size := if context_size ≤ 0 then 1024 else context_size
  if context_size < wrapInt32 (n_tokens + max_tokens) then
    wrapInt32 (wrapInt32 (n_tokens + max_tokens) + 128)
  else context_size

/-- Line 108: `safe_threads`. -/
def safeThreads (threads : Int) : Int :=
  if threads > 0 then threads else 4

/-- Lines 92-111: the context parameters handed to `llama_init_from_model`. -/
def contextParams (context_size n_tokens max_tokens threads : Int) : ContextParams :=
  { n_ctx := contextSize context_size n_tokens max_tokens
    n_batch := 512
    n_threads := safeThreads threads
    n_threads_batch := safeThreads threads }

/-- Line 170: `n_decode`. -/
def nDecode (max_tokens : Int) : Int :=
  if max_tokens > 0 then max_tokens else 256

/-- Lines 133-147: the batch of one chunk.  The `for` loop fills `chunk_size`
slots with the output flag off, then the flag of the last slot is turned on when
the chunk ends the prompt. -/
def chunkBatch (tokens_list : Nat → Token) (n_tokens n_eval chunk_size : Int) : Batch :=
  let filled : Batch := (List.range chunk_size.toNat).map fun (i : Nat) =>
    { token := tokens_list (n_eval + (i : Int)).toNat
      pos := n_eval + (i : Int)
      n_seq_id := 1
      seq_id := 0
      logits := false }
  if n_eval + chunk_size = n_tokens then
    filled.modify (fun e => { e with logits := true }) (chunk_size - 1).toNat
  else filled

/-- What the loop of lines 130-158 leaves: `ok = false` when it returned at
line 152, the cursor `n_eval`, and every batch passed to `llama_decode` so far. -/
structure IngestOut where
  ok : Bool
  n_eval : Int
  fed : List Batch
deriving DecidableEq

/-- The loop of lines 130-158 with chunk capacity `n_batch_size`, from cursor
`n_eval`, `fed` being the batches decoded before. -/
def ingestLoop (env : Engine) (tokens_list : Nat → Token) (n_tokens n_batch_size : Int) :
    Nat → Int → List Batch → Option IngestOut
  | 0, n_eval, fed =>
    if n_eval < n_tokens then none else some { ok := true, n_eval := n_eval, fed := fed }
  | fuel + 1, n_eval, fed =>
    if n_eval < n_tokens then
      let chunk_size := min n_batch_size (n_tokens - n_eval)
      let chunk_batch := chunkBatch tokens_list n_tokens n_eval chunk_size
      if env.llama_decode fed chunk_batch then
        ingestLoop env tokens_list n_tokens n_batch_size fuel (n_eval + chunk_size)
          (fed ++ [chunk_batch])
      else some { ok := false, n_eval := n_eval, fed := fed ++ [chunk_batch] }
    else some { ok := true, n_eval := n_eval, fed := fed }

/-- The variables of the generation loop (lines 166-218), with the flag and the
observable traces: batches decoded, tokens sampled, payloads of the callback. -/
structure GenState where
  cancel_generation : Bool
  n_cur : Int
  gen_count : Int
  result : List Byte
  fed : List Batch
  sampled : List Token
  streamed : List (List Byte)
deriving DecidableEq

/-- Lines 166-183: the state on entry to the generation loop. -/
def genInit (n_tokens : Int) (fed : List Batch) : GenState :=
  { cancel_generation := false
    n_cur := n_tokens
    gen_count := 0
    result := []
    fed := fed
    sampled := []
    streamed := [] }

/-- Line 197: `std::string new_piece(buf, n)`. -/
def newPiece (buf : Nat → Byte) (n : Int) : List Byte :=
  (List.range n.toNat).map buf

/-- Lines 194-206: convert the token to its piece and, when the piece has
`n > 0` bytes, append it to `result` and pass it to the callback if there is one. -/
def emitPiece (env : Engine) (st : GenState) (id : Token) : GenState :=
  let n := (env.llama_token_to_piece id).1
  let buf := (env.llama_token_to_piece id).2
  if n > 0 then
    let new_piece := newPiece buf n
    { st with
      result := st.result ++ new_piece
      streamed := if env.onTokenMethod then st.streamed ++ [new_piece] else st.streamed }
  else st

/-- One pass through the body of the loop of lines 185-218: the state afterwards
and whether the loop goes on (`false` after a `break`). -/
def genBody (env : Engine) (st : GenState) : GenState × Bool :=
  let flag := st.cancel_generation || env.stop_called st.sampled.length
  if flag then ({ st with cancel_generation := true }, false)
  else
    let id := env.llama_sampler_sample st.fed st.sampled
    let st1 := { st with sampled := st.sampled ++ [id] }
    if env.llama_vocab_is_eog id then (st1, false)
    else
      let st2 := emitPiece env st1 id
      let batch : Batch :=
        [{ token := id, pos := st2.n_cur, n_seq_id := 1, seq_id := 0, logits := true }]
      let st3 := { st2 with fed := st2.fed ++ [batch] }
      if env.llama_decode st2.fed batch then
        ({ st3 with n_cur := st3.n_cur + 1, gen_count := st3.gen_count + 1 }, true)
      else (st3, false)

/-- The loop of lines 185-218: `while (n_cur <= n_tokens + n_decode)` around
`genBody`. -/
def genLoop (env : Engine) (n_tokens n_decode : Int) : Nat → GenState → Option GenState
  | 0, st => if st.n_cur ≤ n_tokens + n_decode then none else some st
  | fuel + 1, st =>
    if st.n_cur ≤ n_tokens + n_decode then
      if (genBody env st).2 then genLoop env n_tokens n_decode fuel (genBody env st).1
      else some (genBody env st).1
    else some st

/-- What one call of `nativeGenerate` does: the session afterwards, the returned
byte array `ret`, the window `n_ctx` handed to the engine (`none` when the call
returns at line 70), the batches passed to `llama_decode`, the tokens sampled, the
payloads passed to `onTokenGenerated`, `result` before the stats are appended,
`gen_count`, and whether lines 220-234 (result assembly) were reached. -/
structure GenResult where
  session : Session
  ret : List Byte
  n_ctx : Option Int
  fed : List Batch
  sampled : List Token
  streamed : List (List Byte)
  result : List Byte
  gen_count : Int
  assembled : Bool
deriving DecidableEq

/-- An early `return env->NewByteArray(0)`. -/
def earlyReturn (s : Session) (n_ctx : Option Int) (fed : List Batch) : GenResult :=
  { session := s, ret := [], n_ctx := n_ctx, fed := fed, sampled := [], streamed := [],
    result := [], gen_count := 0, assembled := false }

/-- The function `Java_com_example_app_LlamaPlugin_nativeGenerate`.  The
`system_prompt` argument is read and released without being used. -/
def nativeGenerate (env : Engine) (s : Session) (prompt : String)
    (max_tokens context_size threads : Int) : Option GenResult :=
  match s.model, s.vocab with
  | some model, some _ =>
    let n_tokens := (tokenizePrompt env prompt).1
    let tokens_list := (tokenizePrompt env prompt).2
    let s1 := match s.ctx with
      | some c => { s with freed := s.freed ++ [c] }
      | none => s
    let cparams := contextParams context_size n_tokens max_tokens threads
    let n_ctx := cparams.n_ctx
    let s2 := { s1 with ctx := env.llama_init_from_model model cparams }
    match s2.ctx with
    | none => some (earlyReturn s2 (some n_ctx) [])
    | some _ =>
      let s3 := match s2.smpl with
        | some p => { s2 with freed := s2.freed ++ [p] }
        | none => s2
      let s4 := { s3 with smpl := env.llama_sampler_chain_init }
      let n_batch_size : Int := 512
      match ingestLoop env tokens_list n_tokens n_batch_size n_tokens.toNat 0 [] with
      | none => none
      | some ing =>
        if ing.ok then
          let n_decode := nDecode max_tokens
          match genLoop env n_tokens n_decode (n_decode + 1).toNat (genInit n_tokens ing.fed) with
          | none => none
          | some st =>
            some
              { session := { s4 with cancel_generation := st.cancel_generation }
                ret := st.result ++ env.stats_buf n_tokens st.gen_count
                n_ctx := some n_ctx
                fed := st.fed
                sampled := st.sampled
                streamed := st.streamed
                result := st.result
                gen_count := st.gen_count
                assembled := true }
        else some (earlyReturn s4 (some n_ctx) ing.fed)
  | _, _ => some (earlyReturn s none [])

/-! ## Reference descriptions used in the statements -/

/-- The slot that ingestion builds for absolute position `p` of a prompt of
`n_tokens` tokens: the output flag is on at the last position only. -/
def entryAt (tokens_list : Nat → Token) (n_tokens p : Int) : BatchEntry :=
  { token := tokens_list p.toNat, pos := p, n_seq_id := 1, seq_id := 0,
    logits := decide (p = n_tokens - 1) }

/-- The slots for the positions `a, a + 1, ..., a + k - 1`. -/
def entriesFrom (tokens_list : Nat → Token) (n_tokens a : Int) (k : Nat) : List BatchEntry :=
  (List.range k).map (fun (i : Nat) => entryAt tokens_list n_tokens (a + (i : Int)))

/-- The part of a slot that says what is ingested where: token, position and
sequence id. -/
def entryKey (e : BatchEntry) : Token × Int × Int := (e.token, e.pos, e.seq_id)

/-- Every forward pass recorded in `fed` returned `0`. -/
def AllDecoded (env : Engine) (fed : List Batch) : Prop :=
  ∀ (j : Nat) (hj : j < fed.length), env.llama_decode (fed.take j) fed[j] = true

/-- The text accumulated so far is the concatenation of the fragments streamed so
far (when the callback exists), and no streamed fragment is empty. -/
def StreamInv (env : Engine) (st : GenState) : Prop :=
  (env.onTokenMethod = true → st.streamed.flatten = st.result) ∧ ∀ f ∈ st.streamed, f ≠ []

/-! ## Concrete engines used to evaluate the model -/

/-- An engine whose forward passes all succeed, whose sampler always returns
token `7` (never end of sequence, piece `a`), with the callback present and no
stop request.  Only the file `model.gguf` loads.  Every prompt tokenizes to the
`n` tokens `100, 101, ...`. -/
def stubEngine (n : Int) : Engine :=
  { llama_model_load_from_file := fun path => if path = "model.gguf" then some 1 else none
    llama_model_get_vocab := fun _ => some 2
    llama_model_meta_val_str := fun _ => (5, "llama")
    llama_tokenize := fun _ _ => (n, fun i => 100 + (i : Int))
    llama_init_from_model := fun _ _ => some 3
    llama_sampler_chain_init := some 4
    llama_decode := fun _ _ => true
    llama_sampler_sample := fun _ _ => 7
    llama_vocab_is_eog := fun _ => false
    llama_token_to_piece := fun _ => (1, fun _ => 97)
    onTokenMethod := true
    stop_called := fun _ => false
    stats_buf := fun _ _ => [91, 93] }

/-- The engine `stubEngine 1` with a sampler that returns end of sequence (token
`2`) once `k` tokens have been sampled. -/
def eogEngine (k : Nat) : Engine :=
  { stubEngine 1 with
    llama_sampler_sample := fun _ sampled => if sampled.length < k then 7 else 2
    llama_vocab_is_eog := fun id => id == 2 }

/-- The engine `stubEngine 1` with a forward pass that fails as soon as a batch
holds a position outside a window of `n_ctx` positions. -/
def windowEngine (n_ctx : Int) : Engine :=
  { stubEngine 1 with
    llama_decode := fun _ batch => batch.all fun e => decide (e.pos < n_ctx) }

/-- The engine `stubEngine n` with a forward pass that fails on the second call. -/
def secondDecodeFails (n : Int) : Engine :=
  { stubEngine n with llama_decode := fun fed _ => decide (fed.length ≠ 1) }

/-- The engine `stubEngine 1` with `nativeStop` called right after the reset of
line 171. -/
def stopAtOnce : Engine :=
  { stubEngine 1 with stop_called := fun k => k == 0 }

/-- The session of a fresh process: every pointer null, the flag clear. -/
def freshSession : Session :=
  { model := none, ctx := none, smpl := none, vocab := none,
    cancel_generation := false, freed := [] }

/-- A session after a successful load: model `1`, vocabulary `2`. -/
def loadedSession : Session :=
  { model := some 1, ctx := none, smpl := none, vocab := some 2,
    cancel_generation := false, freed := [] }

/-- A session after a successful load and a successful generate: model `1`,
vocabulary `2`, context `3`, sampler chain `4`. -/
def usedSession : Session :=
  { model := some 1, ctx := some 3, smpl := some 4, vocab := some 2,
    cancel_generation := false, freed := [] }

/-! ## Lemmas on the loops and on the returns of nativeGenerate -/

/-- A chunk batch has `chunk_size` slots. -/
theorem chunkBatch_length (tokens_list : Nat → Token) (n_tokens n_eval chunk_size : Int) :
    (chunkBatch tokens_list n_tokens n_eval chunk_size).length = chunk_size.toNat := by
  unfold chunkBatch
  split <;> simp

/-- The two writes of lines 136-147 give, slot by slot, the reference slots: the
flag is on exactly at position `n_tokens - 1`. -/
theorem chunkBatch_eq (tokens_list : Nat → Token) (n_tokens n_eval chunk_size : Int)
    (h1 : 1 ≤ chunk_size) (h2 : n_eval + chunk_size ≤ n_tokens) :
    chunkBatch tokens_list n_tokens n_eval chunk_size =
      (List.range chunk_size.toNat).map
        (fun (i : Nat) => entryAt tokens_list n_tokens (n_eval + (i : Int))) := by
  apply List.ext_getElem?
  intro i
  unfold chunkBatch
  by_cases hi : i < chunk_size.toNat
  · by_cases hlast : n_eval + chunk_size = n_tokens
    · simp only [hlast, if_true, List.getElem?_modify, List.getElem?_map,
        List.getElem?_range hi, Option.map_some', Option.map_eq_map]
      have hpred : (chunk_size - 1).toNat = chunk_size.toNat - 1 := by omega
      by_cases hl : chunk_size.toNat - 1 = i
      · simp [hpred, hl, entryAt]; omega
      · simp [hpred, hl, entryAt]; omega
    · simp [hlast, entryAt, List.getElem?_range hi]
      omega
  · have hlen : ∀ f : Nat → BatchEntry, ((List.range chunk_size.toNat).map f)[i]? = none := by
      intro f
      apply List.getElem?_eq_none
      simp; omega
    split
    · rw [List.getElem?_modify, hlen, hlen]; rfl
    · rw [hlen, hlen]


/-- Reference slots for `j + k` positions split after the first `j`. -/
theorem entriesFrom_add (tokens_list : Nat → Token) (n_tokens a : Int) (j k : Nat) :
    entriesFrom tokens_list n_tokens a (j + k) =
      entriesFrom tokens_list n_tokens a j ++ entriesFrom tokens_list n_tokens (a + (j : Int)) k := by
  unfold entriesFrom
  rw [List.range_add, List.map_append, List.map_map]
  congr 1
  apply List.map_congr_left
  intro i _
  simp [Function.comp, add_assoc]

/-- When every forward pass succeeds and the capacity is at least one, the
ingestion loop started at `n_eval` with enough fuel ends normally at `n`, and the
batches it adds flatten to the reference slots of the positions `n_eval .. n - 1`,
each batch holding between one and `c` slots. -/
theorem ingestLoop_all_ok (env : Engine) (tokens_list : Nat → Token) (n c : Int)
    (hc : 1 ≤ c) (hok : ∀ h b, env.llama_decode h b = true) :
    ∀ (fuel : Nat) (n_eval : Int) (fed : List Batch),
      n_eval ≤ n → (n - n_eval).toNat ≤ fuel →
      ∃ new : List Batch,
        ingestLoop env tokens_list n c fuel n_eval fed
            = some { ok := true, n_eval := n, fed := fed ++ new } ∧
          new.flatten = entriesFrom tokens_list n n_eval (n - n_eval).toNat ∧
          ∀ b ∈ new, 1 ≤ b.length ∧ (b.length : Int) ≤ c := by
  intro fuel
  induction fuel with
  | zero =>
    intro n_eval fed h1 h2
    have heq : n_eval = n := by omega
    subst heq
    exact ⟨[], by simp [ingestLoop], by simp [entriesFrom], by simp⟩
  | succ fuel ih =>
    intro n_eval fed h1 h2
    by_cases hlt : n_eval < n
    · have hcs1 : 1 ≤ min c (n - n_eval) := by omega
      have hcs2 : n_eval + min c (n - n_eval) ≤ n := by omega
      obtain ⟨new, hrun, hflat, hlen⟩ :=
        ih (n_eval + min c (n - n_eval))
          (fed ++ [chunkBatch tokens_list n n_eval (min c (n - n_eval))]) hcs2 (by omega)
      refine ⟨chunkBatch tokens_list n n_eval (min c (n - n_eval)) :: new, ?_, ?_, ?_⟩
      · rw [ingestLoop, if_pos hlt]
        simp only [hok, if_true]
        rw [hrun]
        simp
      · rw [List.flatten_cons, hflat, chunkBatch_eq _ _ _ _ hcs1 hcs2]
        have hsplit : (n - n_eval).toNat
            = (min c (n - n_eval)).toNat + (n - (n_eval + min c (n - n_eval))).toNat := by omega
        rw [hsplit, entriesFrom_add]
        have hcast : (((min c (n - n_eval)).toNat : Nat) : Int) = min c (n - n_eval) := by omega
        rw [hcast]
        rfl
      · intro b hb
        rcases List.mem_cons.mp hb with rfl | hb
        · rw [chunkBatch_length]; omega
        · exact hlen b hb
    · have heq : n_eval = n := by omega
      subst heq
      exact ⟨[], by simp [ingestLoop], by simp [entriesFrom], by simp⟩


/-- Reference slots for `k + 1` positions end with the slot of the last one. -/
theorem entriesFrom_succ (tokens_list : Nat → Token) (n_tokens a : Int) (k : Nat) :
    entriesFrom tokens_list n_tokens a (k + 1) =
      entriesFrom tokens_list n_tokens a k ++ [entryAt tokens_list n_tokens (a + (k : Int))] := by
  unfold entriesFrom
  rw [List.range_succ, List.map_append]
  rfl

/-- Every reference slot is the slot of one of the positions. -/
theorem entriesFrom_mem (tokens_list : Nat → Token) (n_tokens a : Int) (k : Nat)
    (e : BatchEntry) (he : e ∈ entriesFrom tokens_list n_tokens a k) :
    ∃ i : Nat, i < k ∧ e = entryAt tokens_list n_tokens (a + (i : Int)) := by
  unfold entriesFrom at he
  obtain ⟨i, hi, rfl⟩ := List.mem_map.mp he
  exact ⟨i, List.mem_range.mp hi, rfl⟩

/-- Among the reference slots of a whole prompt, the flag is on for the last one only. -/
theorem entriesFrom_filter (tokens_list : Nat → Token) (n : Int) (hn : 1 ≤ n) :
    (entriesFrom tokens_list n 0 n.toNat).filter (fun e => e.logits)
      = [entryAt tokens_list n (n - 1)] := by
  obtain ⟨k, hk⟩ : ∃ k : Nat, n.toNat = k + 1 := ⟨n.toNat - 1, by omega⟩
  rw [hk, entriesFrom_succ, List.filter_append]
  have hfront : (entriesFrom tokens_list n 0 k).filter (fun e => e.logits) = [] := by
    rw [List.filter_eq_nil_iff]
    intro e he
    obtain ⟨i, hi, rfl⟩ := entriesFrom_mem _ _ _ _ _ he
    simp [entryAt]
    omega
  have hk2 : (0 : Int) + (k : Int) = n - 1 := by omega
  rw [hfront, hk2]
  simp [entryAt]

/-- The last element of a concatenation of nonempty lists is the last element of
the last list. -/
theorem getLast?_flatten_of_nonempty {α : Type} :
    ∀ (L : List (List α)), (∀ b ∈ L, b ≠ []) →
      L.flatten.getLast? = L.getLast?.bind List.getLast?
  | [], _ => by simp
  | [b], _ => by simp
  | b :: c :: L, h => by
    have ih := getLast?_flatten_of_nonempty (c :: L) (fun x hx => h x (List.mem_cons_of_mem _ hx))
    have hc : c ≠ [] := h c (by simp)
    rw [List.flatten_cons, List.getLast?_append, ih, List.getLast?_cons_cons]
    cases hL : ((c :: L).getLast?.bind List.getLast?) with
    | some x => simp
    | none =>
      exfalso
      rw [← ih] at hL
      rw [List.getLast?_eq_none_iff, List.flatten_cons] at hL
      exact hc (List.append_eq_nil.mp hL).1


/-- The reference slots of a whole prompt carry token `i` at position `i` with
sequence id `0`. -/
theorem entriesFrom_keys (tokens_list : Nat → Token) (n : Int) (k : Nat) :
    (entriesFrom tokens_list n 0 k).map entryKey
      = (List.range k).map (fun (i : Nat) => (tokens_list i, (i : Int), (0 : Int))) := by
  unfold entriesFrom
  rw [List.map_map]
  apply List.map_congr_left
  intro i _
  simp [entryKey, entryAt]

/-- No forward pass has failed before the first one. -/
theorem AllDecoded_nil (env : Engine) : AllDecoded env [] := by
  intro j hj
  simp at hj

/-- One more successful forward pass keeps the record free of failures. -/
theorem AllDecoded_concat (env : Engine) (fed : List Batch) (b : Batch)
    (h : AllDecoded env fed) (hb : env.llama_decode fed b = true) :
    AllDecoded env (fed ++ [b]) := by
  intro j hj
  by_cases hlt : j < fed.length
  · rw [List.take_append_of_le_length (by omega), List.getElem_append_left hlt]
    exact h j hlt
  · have hj2 : j = fed.length := by
      simp at hj; omega
    subst hj2
    simpa using hb

/-- A forward pass inside a failure-free record succeeded, whatever was fed later. -/
theorem AllDecoded_at_left (env : Engine) (fed more : List Batch) (h : AllDecoded env fed)
    (k : Nat) (hk : k < fed.length) (hk2 : k < (fed ++ more).length) :
    env.llama_decode ((fed ++ more).take k) (fed ++ more)[k] = true := by
  rw [List.take_append_of_le_length (by omega), List.getElem_append_left hk]
  exact h k hk

/-- For any engine, the ingestion loop with capacity at least one and enough fuel
returns.  When it ends normally every forward pass succeeded and the batches cover
the prompt; when it returns at line 152 the last batch fed is the one whose forward
pass failed, and every earlier one succeeded. -/
theorem ingestLoop_spec (env : Engine) (tokens_list : Nat → Token) (n c : Int) (hc : 1 ≤ c) :
    ∀ (fuel : Nat) (n_eval : Int) (fed : List Batch),
      (n - n_eval).toNat ≤ fuel → AllDecoded env fed →
      ∃ out : IngestOut,
        ingestLoop env tokens_list n c fuel n_eval fed = some out ∧
        (out.ok = true →
          AllDecoded env out.fed ∧ n ≤ n_eval + c * ((out.fed.length : Int) - fed.length)) ∧
        (out.ok = false →
          ∃ (pre : List Batch) (b : Batch),
            out.fed = pre ++ [b] ∧ AllDecoded env pre ∧ env.llama_decode pre b = false) := by
  intro fuel
  induction fuel with
  | zero =>
    intro n_eval fed h1 h2
    have hge : ¬ n_eval < n := by omega
    refine ⟨{ ok := true, n_eval := n_eval, fed := fed }, by simp [ingestLoop, hge], ?_, by simp⟩
    intro _
    exact ⟨h2, by simp; omega⟩
  | succ fuel ih =>
    intro n_eval fed h1 h2
    by_cases hlt : n_eval < n
    · by_cases hdec : env.llama_decode fed
          (chunkBatch tokens_list n n_eval (min c (n - n_eval))) = true
      · obtain ⟨out, hrun, hok, hfail⟩ :=
          ih (n_eval + min c (n - n_eval))
            (fed ++ [chunkBatch tokens_list n n_eval (min c (n - n_eval))]) (by omega)
            (AllDecoded_concat env fed _ h2 hdec)
        refine ⟨out, ?_, ?_, hfail⟩
        · rw [ingestLoop, if_pos hlt]
          simp only [hdec, if_true]
          exact hrun
        · intro ho
          obtain ⟨ha, hb⟩ := hok ho
          refine ⟨ha, ?_⟩
          simp only [List.length_append, List.length_singleton, Nat.cast_add, Nat.cast_one] at hb
          have hmin : min c (n - n_eval) ≤ c := min_le_left _ _
          nlinarith
      · refine ⟨{ ok := false, n_eval := n_eval,
                  fed := fed ++ [chunkBatch tokens_list n n_eval (min c (n - n_eval))] },
          ?_, by simp, ?_⟩
        · rw [ingestLoop, if_pos hlt]
          simp [hdec]
        · intro _
          exact ⟨fed, _, rfl, h2, by simpa using hdec⟩
    · refine ⟨{ ok := true, n_eval := n_eval, fed := fed }, by simp [ingestLoop, hlt], ?_, by simp⟩
      intro _
      exact ⟨h2, by simp; omega⟩

@[simp] theorem emitPiece_n_cur (env : Engine) (st : GenState) (id : Token) :
    (emitPiece env st id).n_cur = st.n_cur := by
  simp only [emitPiece]
  split_ifs <;> rfl

@[simp] theorem emitPiece_gen_count (env : Engine) (st : GenState) (id : Token) :
    (emitPiece env st id).gen_count = st.gen_count := by
  simp only [emitPiece]
  split_ifs <;> rfl

@[simp] theorem emitPiece_fed (env : Engine) (st : GenState) (id : Token) :
    (emitPiece env st id).fed = st.fed := by
  simp only [emitPiece]
  split_ifs <;> rfl

@[simp] theorem emitPiece_sampled (env : Engine) (st : GenState) (id : Token) :
    (emitPiece env st id).sampled = st.sampled := by
  simp only [emitPiece]
  split_ifs <;> rfl

@[simp] theorem emitPiece_cancel (env : Engine) (st : GenState) (id : Token) :
    (emitPiece env st id).cancel_generation = st.cancel_generation := by
  simp only [emitPiece]
  split_ifs <;> rfl

/-- A pass through the loop body that does not break advances `n_cur` by one. -/
theorem genBody_n_cur (env : Engine) (st : GenState) (h : (genBody env st).2 = true) :
    (genBody env st).1.n_cur = st.n_cur + 1 := by
  simp only [genBody] at h ⊢
  split_ifs at h ⊢
  all_goals simp_all

/-- The generation loop returns when the fuel covers the distance of `n_cur` to the
loop bound. -/
theorem genLoop_total (env : Engine) (n_tokens n_decode : Int) :
    ∀ (fuel : Nat) (st : GenState), (n_tokens + n_decode + 1 - st.n_cur).toNat ≤ fuel →
      ∃ st', genLoop env n_tokens n_decode fuel st = some st' := by
  intro fuel
  induction fuel with
  | zero =>
    intro st h
    have hgt : ¬ st.n_cur ≤ n_tokens + n_decode := by omega
    exact ⟨st, by simp [genLoop, hgt]⟩
  | succ fuel ih =>
    intro st h
    rw [genLoop]
    by_cases hle : st.n_cur ≤ n_tokens + n_decode
    · rw [if_pos hle]
      by_cases hgo : (genBody env st).2 = true
      · rw [if_pos hgo]
        apply ih
        rw [genBody_n_cur env st hgo]
        omega
      · rw [if_neg hgo]
        exact ⟨_, rfl⟩
    · rw [if_neg hle]
      exact ⟨_, rfl⟩

/-- A property kept by the loop body holds when the generation loop returns. -/
theorem genLoop_invariant (env : Engine) (n_tokens n_decode : Int) (P : GenState → Prop)
    (hstep : ∀ st, P st → P (genBody env st).1) :
    ∀ (fuel : Nat) (st st' : GenState), P st →
      genLoop env n_tokens n_decode fuel st = some st' → P st' := by
  intro fuel
  induction fuel with
  | zero =>
    intro st st' hP hrun
    rw [genLoop] at hrun
    split_ifs at hrun
    cases hrun
    exact hP
  | succ fuel ih =>
    intro st st' hP hrun
    rw [genLoop] at hrun
    split_ifs at hrun with h1 h2
    · exact ih _ _ (hstep st hP) hrun
    · cases hrun
      exact hstep st hP
    · cases hrun
      exact hP

/-- A piece of `n > 0` bytes is not empty. -/
theorem newPiece_ne_nil (buf : Nat → Byte) (n : Int) (h : n > 0) : newPiece buf n ≠ [] := by
  intro hnil
  have hlen : (newPiece buf n).length = n.toNat := by simp [newPiece]
  rw [hnil] at hlen
  simp at hlen
  omega

/-- Emitting a piece keeps `StreamInv`. -/
theorem emitPiece_StreamInv (env : Engine) (st : GenState) (id : Token)
    (h : StreamInv env st) : StreamInv env (emitPiece env st id) := by
  obtain ⟨h1, h2⟩ := h
  simp only [StreamInv, emitPiece]
  by_cases hn : (env.llama_token_to_piece id).1 > 0
  · rw [if_pos hn]
    by_cases hcb : env.onTokenMethod = true
    · simp only [hcb, if_true, forall_true_left]
      refine ⟨by rw [List.flatten_concat, h1 hcb], ?_⟩
      intro f hf
      rcases List.mem_append.mp hf with hf | hf
      · exact h2 f hf
      · rw [List.mem_singleton.mp hf]
        exact newPiece_ne_nil _ _ hn
    · simp only [hcb, if_false]
      exact ⟨fun hc => absurd hc (by simp), h2⟩
  · rw [if_neg hn]
    exact ⟨h1, h2⟩

/-- The loop body keeps `StreamInv`. -/
theorem genBody_StreamInv (env : Engine) (st : GenState) (h : StreamInv env st) :
    StreamInv env (genBody env st).1 := by
  have hs1 : StreamInv env
      (emitPiece env { st with sampled := st.sampled ++ [env.llama_sampler_sample st.fed st.sampled] }
        (env.llama_sampler_sample st.fed st.sampled)) :=
    emitPiece_StreamInv env _ _ h
  simp only [genBody]
  split_ifs
  · exact h
  · exact h
  · exact hs1
  · exact hs1

/-- The loop body only appends to the record of batches fed. -/
theorem genBody_fed (env : Engine) (st : GenState) :
    ∃ more, (genBody env st).1.fed = st.fed ++ more := by
  simp only [genBody]
  split_ifs
  · exact ⟨[], (List.append_nil _).symm⟩
  · exact ⟨[], (List.append_nil _).symm⟩
  · refine ⟨[[{ token := env.llama_sampler_sample st.fed st.sampled, pos := st.n_cur,
                 n_seq_id := 1, seq_id := 0, logits := true }]], ?_⟩
    simp
  · refine ⟨[[{ token := env.llama_sampler_sample st.fed st.sampled, pos := st.n_cur,
                 n_seq_id := 1, seq_id := 0, logits := true }]], ?_⟩
    simp

/-- The generation loop only appends to the record of batches fed. -/
theorem genLoop_fed (env : Engine) (n_tokens n_decode : Int) (fuel : Nat) (st st' : GenState)
    (h : genLoop env n_tokens n_decode fuel st = some st') :
    ∃ more, st'.fed = st.fed ++ more := by
  refine genLoop_invariant env n_tokens n_decode (fun x => ∃ more, x.fed = st.fed ++ more)
    ?_ fuel st st' ⟨[], by simp⟩ h
  rintro x ⟨more, hx⟩
  obtain ⟨more2, hx2⟩ := genBody_fed env x
  exact ⟨more ++ more2, by rw [hx2, hx, List.append_assoc]⟩

/-- The return of line 70. -/
theorem nativeGenerate_not_loaded (env : Engine) (s : Session) (prompt : String)
    (max_tokens context_size threads : Int) (h : s.model = none ∨ s.vocab = none) :
    nativeGenerate env s prompt max_tokens context_size threads
      = some (earlyReturn s none []) := by
  unfold nativeGenerate
  split
  · rename_i m v hm hv
    rcases h with h | h
    · rw [h] at hm; cases hm
    · rw [h] at hv; cases hv
  · rfl

/-- The return of line 114. -/
theorem nativeGenerate_ctx_fail (env : Engine) (s : Session) (prompt : String)
    (max_tokens context_size threads : Int) (model vocab : Handle)
    (hm : s.model = some model) (hv : s.vocab = some vocab)
    (hctx : env.llama_init_from_model model
      (contextParams context_size (tokenizePrompt env prompt).1 max_tokens threads) = none) :
    ∃ sess : Session, nativeGenerate env s prompt max_tokens context_size threads
      = some (earlyReturn sess
          (some (contextSize context_size (tokenizePrompt env prompt).1 max_tokens)) []) := by
  unfold nativeGenerate
  simp only [hm, hv, hctx]
  exact ⟨_, rfl⟩

/-- The return of line 152. -/
theorem nativeGenerate_ingest_fail (env : Engine) (s : Session) (prompt : String)
    (max_tokens context_size threads : Int) (model vocab c : Handle) (ing : IngestOut)
    (hm : s.model = some model) (hv : s.vocab = some vocab)
    (hctx : env.llama_init_from_model model
      (contextParams context_size (tokenizePrompt env prompt).1 max_tokens threads) = some c)
    (hing : ingestLoop env (tokenizePrompt env prompt).2 (tokenizePrompt env prompt).1 512
      (tokenizePrompt env prompt).1.toNat 0 [] = some ing)
    (hok : ing.ok = false) :
    ∃ sess : Session, nativeGenerate env s prompt max_tokens context_size threads
      = some (earlyReturn sess
          (some (contextSize context_size (tokenizePrompt env prompt).1 max_tokens)) ing.fed) := by
  unfold nativeGenerate
  simp only [hm, hv, hctx, hing, hok]
  exact ⟨_, rfl⟩

/-- The return of line 234, from the state in which the generation loop ended. -/
theorem nativeGenerate_assembled (env : Engine) (s : Session) (prompt : String)
    (max_tokens context_size threads : Int) (model vocab c : Handle) (ing : IngestOut)
    (st : GenState)
    (hm : s.model = some model) (hv : s.vocab = some vocab)
    (hctx : env.llama_init_from_model model
      (contextParams context_size (tokenizePrompt env prompt).1 max_tokens threads) = some c)
    (hing : ingestLoop env (tokenizePrompt env prompt).2 (tokenizePrompt env prompt).1 512
      (tokenizePrompt env prompt).1.toNat 0 [] = some ing)
    (hok : ing.ok = true)
    (hgen : genLoop env (tokenizePrompt env prompt).1 (nDecode max_tokens)
      (nDecode max_tokens + 1).toNat
      (genInit (tokenizePrompt env prompt).1 ing.fed) = some st) :
    ∃ sess : Session, sess.cancel_generation = st.cancel_generation ∧
      nativeGenerate env s prompt max_tokens context_size threads
        = some
          { session := sess
            ret := st.result ++ env.stats_buf (tokenizePrompt env prompt).1 st.gen_count
            n_ctx := some (contextSize context_size (tokenizePrompt env prompt).1 max_tokens)
            fed := st.fed
            sampled := st.sampled
            streamed := st.streamed
            result := st.result
            gen_count := st.gen_count
            assembled := true } := by
  unfold nativeGenerate
  simp only [hm, hv, hctx, hing, hok, hgen, if_true]
  exact ⟨_, rfl, rfl⟩

/-- The budget `n_decode` is at least one. -/
theorem nDecode_pos (max_tokens : Int) : 1 ≤ nDecode max_tokens := by
  unfold nDecode
  split_ifs <;> omega

/-- A loop whose first pass breaks returns the state after that pass. -/
theorem genLoop_first_step (env : Engine) (n_tokens n_decode : Int) (fuel : Nat)
    (st : GenState) (hle : st.n_cur ≤ n_tokens + n_decode) (hstop : (genBody env st).2 = false) :
    genLoop env n_tokens n_decode (fuel + 1) st = some (genBody env st).1 := by
  rw [genLoop, if_pos hle]
  simp [hstop]

/-- The loop body when the poll of line 187 reads the flag set. -/
theorem genBody_cancelled (env : Engine) (st : GenState)
    (h : (st.cancel_generation || env.stop_called st.sampled.length) = true) :
    genBody env st = ({ st with cancel_generation := true }, false) := by
  simp only [genBody]
  rw [if_pos h]

/-- The loop body when the sampled token is an end of sequence marker. -/
theorem genBody_eog (env : Engine) (st : GenState)
    (h : (st.cancel_generation || env.stop_called st.sampled.length) = false)
    (heog : env.llama_vocab_is_eog (env.llama_sampler_sample st.fed st.sampled) = true) :
    genBody env st
      = ({ st with sampled := st.sampled ++ [env.llama_sampler_sample st.fed st.sampled] },
          false) := by
  simp only [genBody]
  rw [if_neg (by simp [h]), if_pos heog]

/-- The loop body when nothing stops the loop: one more token sampled and counted. -/
theorem genBody_continues (env : Engine) (st : GenState)
    (hdec : ∀ h b, env.llama_decode h b = true)
    (heog : ∀ id, env.llama_vocab_is_eog id = false)
    (hstop : ∀ k, env.stop_called k = false)
    (hflag : st.cancel_generation = false) :
    (genBody env st).2 = true ∧
      (genBody env st).1.cancel_generation = false ∧
      (genBody env st).1.n_cur = st.n_cur + 1 ∧
      (genBody env st).1.gen_count = st.gen_count + 1 ∧
      (genBody env st).1.sampled.length = st.sampled.length + 1 := by
  simp [genBody, hdec, heog, hstop, hflag]

/-- When nothing stops the loop it runs until `n_cur` passes the bound: the number
of passes is `n_tokens + n_decode + 1 - n_cur`. -/
theorem genLoop_runs_to_bound (env : Engine) (n_tokens n_decode : Int)
    (hdec : ∀ h b, env.llama_decode h b = true)
    (heog : ∀ id, env.llama_vocab_is_eog id = false)
    (hstop : ∀ k, env.stop_called k = false) :
    ∀ (fuel : Nat) (st : GenState), st.cancel_generation = false →
      st.n_cur ≤ n_tokens + n_decode + 1 →
      (n_tokens + n_decode + 1 - st.n_cur).toNat ≤ fuel →
      ∃ st', genLoop env n_tokens n_decode fuel st = some st' ∧
        st'.gen_count = st.gen_count + (n_tokens + n_decode + 1 - st.n_cur) ∧
        (st'.sampled.length : Int) = st.sampled.length + (n_tokens + n_decode + 1 - st.n_cur) := by
  intro fuel
  induction fuel with
  | zero =>
    intro st _ h1 h2
    have hgt : ¬ st.n_cur ≤ n_tokens + n_decode := by omega
    exact ⟨st, by simp [genLoop, hgt], by omega, by omega⟩
  | succ fuel ih =>
    intro st hflag h1 h2
    by_cases hle : st.n_cur ≤ n_tokens + n_decode
    · obtain ⟨hgo, hc, hn, hg, hs⟩ := genBody_continues env st hdec heog hstop hflag
      obtain ⟨st', hrun, hcount, hsampled⟩ :=
        ih (genBody env st).1 hc (by rw [hn]; omega) (by rw [hn]; omega)
      refine ⟨st', ?_, ?_, ?_⟩
      · rw [genLoop, if_pos hle, if_pos hgo]
        exact hrun
      · rw [hcount, hg, hn]; omega
      · rw [hsampled, hs, hn]; push_cast; omega
    · exact ⟨st, by simp [genLoop, hle], by omega, by omega⟩

/-- With every forward pass succeeding, the ingestion of `nativeGenerate` ends
normally. -/
theorem ingestLoop_ok_of_all_decoded (env : Engine) (tokens_list : Nat → Token) (n : Int)
    (hdec : ∀ h b, env.llama_decode h b = true) :
    ∃ ing : IngestOut,
      ingestLoop env tokens_list n 512 n.toNat 0 [] = some ing ∧ ing.ok = true := by
  obtain ⟨ing, hrun, _, hfail⟩ :=
    ingestLoop_spec env tokens_list n 512 (by norm_num) n.toNat 0 [] (by simp)
      (AllDecoded_nil env)
  refine ⟨ing, hrun, ?_⟩
  cases hok : ing.ok with
  | true => rfl
  | false =>
    obtain ⟨pre, b, _, _, hb⟩ := hfail hok
    rw [hdec] at hb
    cases hb

/-- Every call of `nativeGenerate` returns: the fuel handed to the two loops is
never exhausted. -/
theorem nativeGenerate_total (env : Engine) (s : Session) (prompt : String)
    (max_tokens context_size threads : Int) :
    ∃ r, nativeGenerate env s prompt max_tokens context_size threads = some r := by
  cases hm : s.model with
  | none => exact ⟨_, nativeGenerate_not_loaded env s prompt _ _ _ (Or.inl hm)⟩
  | some model =>
    cases hv : s.vocab with
    | none => exact ⟨_, nativeGenerate_not_loaded env s prompt _ _ _ (Or.inr hv)⟩
    | some vocab =>
      cases hctx : env.llama_init_from_model model
          (contextParams context_size (tokenizePrompt env prompt).1 max_tokens threads) with
      | none =>
        obtain ⟨sess, h⟩ := nativeGenerate_ctx_fail env s prompt max_tokens context_size threads
          model vocab hm hv hctx
        exact ⟨_, h⟩
      | some c =>
        obtain ⟨ing, hing, _, _⟩ :=
          ingestLoop_spec env (tokenizePrompt env prompt).2 (tokenizePrompt env prompt).1 512
            (by norm_num) (tokenizePrompt env prompt).1.toNat 0 [] (by simp) (AllDecoded_nil env)
        cases hok : ing.ok with
        | false =>
          obtain ⟨sess, h⟩ := nativeGenerate_ingest_fail env s prompt max_tokens context_size
            threads model vocab c ing hm hv hctx hing hok
          exact ⟨_, h⟩
        | true =>
          obtain ⟨st, hgen⟩ := genLoop_total env (tokenizePrompt env prompt).1
            (nDecode max_tokens) (nDecode max_tokens + 1).toNat
            (genInit (tokenizePrompt env prompt).1 ing.fed) (by simp only [genInit]; omega)
          obtain ⟨sess, _, h⟩ := nativeGenerate_assembled env s prompt max_tokens context_size
            threads model vocab c ing st hm hv hctx hing hok hgen
          exact ⟨_, h⟩

/-! ## The claims -/

/-- Claim C1 (the code departs from it).  With a sampler that never returns end of
sequence, every forward pass succeeding and no stop request, a call with
`max_tokens = m >= 1` runs the body of the generation loop `m + 1` times: it samples
`m + 1` tokens and ends with `gen_count = m + 1`, one more than `maxNewTokens`. -/
theorem C1_generation_loop_runs_one_step_past_maxNewTokens (env : Engine) (s : Session)
    (prompt : String) (m context_size threads : Int) (model vocab c : Handle)
    (hm : s.model = some model) (hv : s.vocab = some vocab)
    (hctx : env.llama_init_from_model model
      (contextParams context_size (tokenizePrompt env prompt).1 m threads) = some c)
    (hmax : 1 ≤ m)
    (hdec : ∀ h b, env.llama_decode h b = true)
    (heog : ∀ id, env.llama_vocab_is_eog id = false)
    (hstop : ∀ k, env.stop_called k = false) :
    ∃ r, nativeGenerate env s prompt m context_size threads = some r ∧
      r.assembled = true ∧ r.gen_count = m + 1 ∧ (r.sampled.length : Int) = m + 1 := by
  obtain ⟨ing, hing, hok⟩ :=
    ingestLoop_ok_of_all_decoded env (tokenizePrompt env prompt).2 (tokenizePrompt env prompt).1 hdec
  have hnd : nDecode m = m := by
    unfold nDecode
    rw [if_pos (by omega)]
  obtain ⟨st, hgen, hcount, hsampled⟩ :=
    genLoop_runs_to_bound env (tokenizePrompt env prompt).1 (nDecode m) hdec heog hstop
      (nDecode m + 1).toNat (genInit (tokenizePrompt env prompt).1 ing.fed) rfl
      (by simp only [genInit]; omega) (by simp only [genInit]; omega)
  obtain ⟨sess, _, h⟩ := nativeGenerate_assembled env s prompt m context_size
    threads model vocab c ing st hm hv hctx hing hok hgen
  refine ⟨_, h, rfl, ?_, ?_⟩
  · show st.gen_count = m + 1
    rw [hcount, hnd]; simp only [genInit]; omega
  · show (st.sampled.length : Int) = m + 1
    rw [hsampled, hnd]; simp only [genInit, List.length_nil]; omega

/-- The theorem of claim C1 at a call with `max_tokens = 1`: two tokens. -/
theorem C1_witness :
    ∃ r, nativeGenerate (stubEngine 1) loadedSession "x" 1 0 0 = some r ∧
      r.assembled = true ∧ r.gen_count = 1 + 1 ∧ (r.sampled.length : Int) = 1 + 1 :=
  C1_generation_loop_runs_one_step_past_maxNewTokens (stubEngine 1) loadedSession "x" 1 0 0
    1 2 3 rfl rfl rfl (by decide) (fun _ _ => rfl) (fun _ => rfl) (fun _ => rfl)

/-- Claim C2, as stated, fails: with no requested size, a prompt of one token and
`max_tokens = 2147483647` the sum of line 99 leaves the 32 bit range, the test of
line 99 is false and the window stays at the default `1024`, below `p + m`. -/
theorem C2_counterexample :
    contextSize 0 1 2147483647 = 1024 ∧
    ¬ ((1 : Int) + 2147483647 ≤ contextSize 0 1 2147483647) := by
  decide

/-- Claim C2, amended.  For every requested context size `r` and token counts `p`,
`m` whose sums `p + m` and `p + m + 128` fit in a 32 bit `int`, the window computed
by lines 96-102 is the requested size (the default `1024` when `r <= 0`) or, when
that is below `p + m`, the override `p + m + 128`; it is at least `p + m`. -/
theorem C2_contextSize_covers_prompt_and_output (r p m : Int)
    (hlo : -2147483648 ≤ p + m) (hhi : p + m + 128 ≤ 2147483647) :
    contextSize r p m
        = (if (if r ≤ 0 then 1024 else r) < p + m then p + m + 128
           else (if r ≤ 0 then 1024 else r)) ∧
      p + m ≤ contextSize r p m := by
  have hsum : wrapInt32 (p + m) = p + m := by
    unfold wrapInt32
    omega
  have hmargin : wrapInt32 (p + m + 128) = p + m + 128 := by
    unfold wrapInt32
    omega
  simp only [contextSize, hsum, hmargin]
  refine ⟨trivial, ?_⟩
  split_ifs <;> omega

/-- The theorem of claim C2 at a requested window of 512 for a prompt of 600 tokens
and 300 new tokens: the window becomes 1028. -/
theorem C2_witness :
    contextSize 512 600 300
        = (if (if (512 : Int) ≤ 0 then 1024 else 512) < 600 + 300 then 600 + 300 + 128
           else (if (512 : Int) ≤ 0 then 1024 else 512)) ∧
      (600 : Int) + 300 ≤ contextSize 512 600 300 :=
  C2_contextSize_covers_prompt_and_output 512 600 300 (by decide) (by decide)

/-- Claim C3.  For a prompt of `n >= 1` tokens and a chunk capacity `c >= 1`, when
every forward pass succeeds, the ingestion loop ends normally and, across all the
batches it fed, exactly one slot has the output flag on: the slot of position
`n - 1`, which is the last slot of the last batch; every slot at another position
has the flag off. -/
theorem C3_only_last_prompt_position_requests_output (env : Engine)
    (tokens_list : Nat → Token) (n c : Int) (fuel : Nat)
    (hn : 1 ≤ n) (hc : 1 ≤ c) (hok : ∀ h b, env.llama_decode h b = true)
    (hfuel : n.toNat ≤ fuel) :
    ∃ out : IngestOut,
      ingestLoop env tokens_list n c fuel 0 [] = some out ∧ out.ok = true ∧
      out.fed.flatten.filter (fun e => e.logits)
        = [{ token := tokens_list (n - 1).toNat, pos := n - 1, n_seq_id := 1, seq_id := 0,
             logits := true }] ∧
      (∀ e ∈ out.fed.flatten, e.pos ≠ n - 1 → e.logits = false) ∧
      out.fed.getLast?.bind List.getLast?
        = some { token := tokens_list (n - 1).toNat, pos := n - 1, n_seq_id := 1, seq_id := 0,
                 logits := true } := by
  obtain ⟨new, hrun, hflat, hlen⟩ :=
    ingestLoop_all_ok env tokens_list n c hc hok fuel 0 [] (by omega) (by simpa using hfuel)
  simp only [List.nil_append, sub_zero] at hrun hflat
  refine ⟨_, hrun, rfl, ?_, ?_, ?_⟩
  · show new.flatten.filter _ = _
    rw [hflat, entriesFrom_filter _ _ hn]
    simp [entryAt]
  · intro e he hpos
    change e ∈ new.flatten at he
    rw [hflat] at he
    obtain ⟨i, _, rfl⟩ := entriesFrom_mem _ _ _ _ _ he
    simp only [entryAt] at hpos ⊢
    simpa using hpos
  · show new.getLast?.bind List.getLast? = _
    rw [← getLast?_flatten_of_nonempty new
      (fun b hb hnil => by have := (hlen b hb).1; rw [hnil] at this; simp at this), hflat]
    obtain ⟨k, hk⟩ : ∃ k : Nat, n.toNat = k + 1 := ⟨n.toNat - 1, by omega⟩
    rw [hk, entriesFrom_succ, List.getLast?_concat]
    have hk2 : (0 : Int) + (k : Int) = n - 1 := by omega
    rw [hk2]
    simp [entryAt]

/-- The theorem of claim C3 at a prompt of five tokens cut into chunks of two. -/
theorem C3_witness :
    ∃ out : IngestOut,
      ingestLoop (stubEngine 5) (fun i => 100 + (i : Int)) 5 2 5 0 [] = some out ∧
      out.ok = true ∧
      out.fed.flatten.filter (fun e => e.logits)
        = [{ token := (fun (i : Nat) => 100 + (i : Int)) ((5 : Int) - 1).toNat, pos := 5 - 1,
             n_seq_id := 1, seq_id := 0, logits := true }] ∧
      (∀ e ∈ out.fed.flatten, e.pos ≠ 5 - 1 → e.logits = false) ∧
      out.fed.getLast?.bind List.getLast?
        = some { token := (fun (i : Nat) => 100 + (i : Int)) ((5 : Int) - 1).toNat, pos := 5 - 1,
                 n_seq_id := 1, seq_id := 0, logits := true } :=
  C3_only_last_prompt_position_requests_output (stubEngine 5) (fun i => 100 + (i : Int)) 5 2 5
    (by decide) (by decide) (fun _ _ => rfl) (by decide)

/-- Claim C4.  For a prompt of `n` tokens and two chunk capacities `c`, `c'` of at
least one, when every forward pass succeeds, the ingestion loop run with either
capacity feeds the same flattened sequence of (token, position, sequence id)
slots, namely token `i` at position `i` with sequence id `0` for `i` from `0` to
`n - 1` in order, no batch holds more slots than the capacity, and both runs leave
`n_eval`, and then `n_cur`, at `n`. -/
theorem C4_chunk_capacity_does_not_change_ingestion (env : Engine)
    (tokens_list : Nat → Token) (n c c' : Int) (fuel fuel' : Nat)
    (hn : 0 ≤ n) (hc : 1 ≤ c) (hc' : 1 ≤ c') (hok : ∀ h b, env.llama_decode h b = true)
    (hfuel : n.toNat ≤ fuel) (hfuel' : n.toNat ≤ fuel') :
    ∃ out out' : IngestOut,
      ingestLoop env tokens_list n c fuel 0 [] = some out ∧
      ingestLoop env tokens_list n c' fuel' 0 [] = some out' ∧
      out.ok = true ∧ out'.ok = true ∧
      out.fed.flatten.map entryKey
        = (List.range n.toNat).map (fun (i : Nat) => (tokens_list i, (i : Int), (0 : Int))) ∧
      out'.fed.flatten.map entryKey = out.fed.flatten.map entryKey ∧
      (∀ b ∈ out.fed, (b.length : Int) ≤ c) ∧ (∀ b ∈ out'.fed, (b.length : Int) ≤ c') ∧
      out.n_eval = n ∧ out'.n_eval = n ∧
      (genInit n out.fed).n_cur = n ∧ (genInit n out'.fed).n_cur = n := by
  obtain ⟨new, hrun, hflat, hlen⟩ :=
    ingestLoop_all_ok env tokens_list n c hc hok fuel 0 [] (by omega) (by simpa using hfuel)
  obtain ⟨new', hrun', hflat', hlen'⟩ :=
    ingestLoop_all_ok env tokens_list n c' hc' hok fuel' 0 [] (by omega) (by simpa using hfuel')
  simp only [List.nil_append, sub_zero] at hrun hflat hrun' hflat'
  refine ⟨_, _, hrun, hrun', rfl, rfl, ?_, ?_, ?_, ?_, rfl, rfl, rfl, rfl⟩
  · show new.flatten.map entryKey = _
    rw [hflat, entriesFrom_keys]
  · show new'.flatten.map entryKey = new.flatten.map entryKey
    rw [hflat, hflat']
  · exact fun b hb => (hlen b hb).2
  · exact fun b hb => (hlen' b hb).2

/-- The theorem of claim C4 at a prompt of five tokens, capacities two and three. -/
theorem C4_witness :
    ∃ out out' : IngestOut,
      ingestLoop (stubEngine 5) (fun i => 100 + (i : Int)) 5 2 5 0 [] = some out ∧
      ingestLoop (stubEngine 5) (fun i => 100 + (i : Int)) 5 3 5 0 [] = some out' ∧
      out.ok = true ∧ out'.ok = true ∧
      out.fed.flatten.map entryKey
        = (List.range (5 : Int).toNat).map
            (fun (i : Nat) => ((fun (i : Nat) => 100 + (i : Int)) i, (i : Int), (0 : Int))) ∧
      out'.fed.flatten.map entryKey = out.fed.flatten.map entryKey ∧
      (∀ b ∈ out.fed, (b.length : Int) ≤ 2) ∧ (∀ b ∈ out'.fed, (b.length : Int) ≤ 3) ∧
      out.n_eval = 5 ∧ out'.n_eval = 5 ∧
      (genInit 5 out.fed).n_cur = 5 ∧ (genInit 5 out'.fed).n_cur = 5 :=
  C4_chunk_capacity_does_not_change_ingestion (stubEngine 5) (fun i => 100 + (i : Int)) 5 2 3 5 5
    (by decide) (by decide) (by decide) (fun _ _ => rfl) (by decide) (by decide)

/-- Claim C5, as stated, fails: the flag is set by `nativeStop` before the call
and never again, yet the call samples two tokens and returns two bytes of text. -/
theorem C5_counterexample :
    (nativeStop loadedSession).cancel_generation = true ∧
    (∀ k, (stubEngine 1).stop_called k = false) ∧
    ∃ r, nativeGenerate (stubEngine 1) (nativeStop loadedSession) "x" 1 0 0 = some r ∧
      r.sampled = [7, 7] ∧ r.result = [97, 97] ∧ r.gen_count = 2 :=
  ⟨rfl, fun _ => rfl, _, rfl, rfl, rfl, rfl⟩

/-- Claim C5, amended.  In a call that reaches the generation loop, a stop request
that arrives after the reset of line 171 and before the first poll ends the loop
with zero generated tokens (nothing sampled, nothing streamed, empty text,
`gen_count = 0`, the returned bytes being the stats suffix alone); a flag set by
`nativeStop` before the call is cleared by the call and changes nothing: the call
returns what it returns from the same session with the flag as it was. -/
theorem C5_stop_after_reset_yields_zero_tokens (env : Engine) (s : Session)
    (prompt : String) (max_tokens context_size threads : Int) (model vocab c : Handle)
    (ing : IngestOut)
    (hm : s.model = some model) (hv : s.vocab = some vocab)
    (hctx : env.llama_init_from_model model
      (contextParams context_size (tokenizePrompt env prompt).1 max_tokens threads) = some c)
    (hing : ingestLoop env (tokenizePrompt env prompt).2 (tokenizePrompt env prompt).1 512
      (tokenizePrompt env prompt).1.toNat 0 [] = some ing)
    (hok : ing.ok = true) :
    (env.stop_called 0 = true →
      ∃ r, nativeGenerate env s prompt max_tokens context_size threads = some r ∧
        r.assembled = true ∧ r.sampled = [] ∧ r.streamed = [] ∧ r.result = [] ∧
        r.gen_count = 0 ∧ r.ret = env.stats_buf (tokenizePrompt env prompt).1 0) ∧
    nativeGenerate env (nativeStop s) prompt max_tokens context_size threads
      = nativeGenerate env s prompt max_tokens context_size threads := by
  constructor
  · intro hstop
    have hnd := nDecode_pos max_tokens
    obtain ⟨k, hk⟩ : ∃ k : Nat, (nDecode max_tokens + 1).toNat = k + 1 :=
      ⟨(nDecode max_tokens + 1).toNat - 1, by omega⟩
    have hflag : ((genInit (tokenizePrompt env prompt).1 ing.fed).cancel_generation ||
        env.stop_called (genInit (tokenizePrompt env prompt).1 ing.fed).sampled.length) = true := by
      simp [genInit, hstop]
    have hbody := genBody_cancelled env (genInit (tokenizePrompt env prompt).1 ing.fed) hflag
    have hgen := genLoop_first_step env (tokenizePrompt env prompt).1 (nDecode max_tokens) k
      (genInit (tokenizePrompt env prompt).1 ing.fed) (by simp only [genInit]; omega)
      (by rw [hbody])
    rw [← hk, hbody] at hgen
    obtain ⟨sess, _, h⟩ := nativeGenerate_assembled env s prompt max_tokens context_size
      threads model vocab c ing _ hm hv hctx hing hok hgen
    exact ⟨_, h, rfl, rfl, rfl, rfl, rfl, by simp [genInit]⟩
  · obtain ⟨m0, c0, p0, v0, f0, fr0⟩ := s
    simp only at hm hv
    subst hm hv
    unfold nativeGenerate nativeStop
    simp only [hctx, hing, hok, if_true]
    cases genLoop env (tokenizePrompt env prompt).1 (nDecode max_tokens)
        (nDecode max_tokens + 1).toNat (genInit (tokenizePrompt env prompt).1 ing.fed) with
    | none => rfl
    | some st => cases c0 <;> cases p0 <;> rfl

/-- The theorem of claim C5 at a call stopped right after the reset. -/
theorem C5_witness :
    (∃ r, nativeGenerate stopAtOnce loadedSession "x" 5 0 0 = some r ∧
        r.assembled = true ∧ r.sampled = [] ∧ r.streamed = [] ∧ r.result = [] ∧
        r.gen_count = 0 ∧ r.ret = stopAtOnce.stats_buf (tokenizePrompt stopAtOnce "x").1 0) ∧
    nativeGenerate stopAtOnce (nativeStop loadedSession) "x" 5 0 0
      = nativeGenerate stopAtOnce loadedSession "x" 5 0 0 :=
  have h := C5_stop_after_reset_yields_zero_tokens stopAtOnce loadedSession "x" 5 0 0
    1 2 3 { ok := true, n_eval := 1, fed := [[entryAt (fun i => 100 + (i : Int)) 1 0]] }
    rfl rfl rfl (by decide) rfl
  ⟨h.1 rfl, h.2⟩

/-- Claim C6, as stated, fails: a call with `max_tokens = 0` that reaches the
generation loop samples tokens and returns two bytes of text before the stats
suffix, with `gen_count = 2`. -/
theorem C6_counterexample :
    ∃ r, nativeGenerate (eogEngine 2) loadedSession "x" 0 0 0 = some r ∧
      r.assembled = true ∧ r.result = [97, 97] ∧ r.gen_count = 2 ∧
      r.ret = [97, 97] ++ (eogEngine 2).stats_buf 1 2 :=
  ⟨_, rfl, rfl, rfl, rfl, rfl⟩

/-- Claim C6, amended.  A call with `max_tokens = 0` in which context creation and
ingestion succeed does not generate with a budget of zero: line 170 replaces the
budget by the default `n_decode = 256`, the call runs the generation loop with it
and returns the text of that loop followed by the stats suffix, which is still
present.  The text is empty and `gen_count` is `0` when the first poll sees a stop
request or the first sampled token is an end of sequence marker. -/
theorem C6_zero_budget_generates_with_default (env : Engine) (s : Session)
    (prompt : String) (context_size threads : Int) (model vocab c : Handle)
    (ing : IngestOut)
    (hm : s.model = some model) (hv : s.vocab = some vocab)
    (hctx : env.llama_init_from_model model
      (contextParams context_size (tokenizePrompt env prompt).1 0 threads) = some c)
    (hing : ingestLoop env (tokenizePrompt env prompt).2 (tokenizePrompt env prompt).1 512
      (tokenizePrompt env prompt).1.toNat 0 [] = some ing)
    (hok : ing.ok = true) :
    ∃ r st, nativeGenerate env s prompt 0 context_size threads = some r ∧
      genLoop env (tokenizePrompt env prompt).1 256 257
        (genInit (tokenizePrompt env prompt).1 ing.fed) = some st ∧
      r.assembled = true ∧
      r.result = st.result ∧ r.gen_count = st.gen_count ∧ r.sampled = st.sampled ∧
      r.streamed = st.streamed ∧
      r.ret = r.result ++ env.stats_buf (tokenizePrompt env prompt).1 r.gen_count ∧
      ((env.stop_called 0 = true ∨
          env.llama_vocab_is_eog (env.llama_sampler_sample ing.fed []) = true) →
        r.result = [] ∧ r.gen_count = 0) := by
  obtain ⟨st, hgen⟩ := genLoop_total env (tokenizePrompt env prompt).1 256 257
    (genInit (tokenizePrompt env prompt).1 ing.fed) (by simp only [genInit]; omega)
  have hgen2 : genLoop env (tokenizePrompt env prompt).1 (nDecode 0) (nDecode 0 + 1).toNat
      (genInit (tokenizePrompt env prompt).1 ing.fed) = some st := hgen
  obtain ⟨sess, _, h⟩ := nativeGenerate_assembled env s prompt 0 context_size
    threads model vocab c ing st hm hv hctx hing hok hgen2
  refine ⟨_, st, h, hgen, rfl, rfl, rfl, rfl, rfl, rfl, ?_⟩
  intro hfirst
  show st.result = [] ∧ st.gen_count = 0
  by_cases hstop : env.stop_called 0 = true
  · have hflag : ((genInit (tokenizePrompt env prompt).1 ing.fed).cancel_generation ||
        env.stop_called (genInit (tokenizePrompt env prompt).1 ing.fed).sampled.length) = true := by
      simp [genInit, hstop]
    have hbody := genBody_cancelled env (genInit (tokenizePrompt env prompt).1 ing.fed) hflag
    have hrun := genLoop_first_step env (tokenizePrompt env prompt).1 256 256
      (genInit (tokenizePrompt env prompt).1 ing.fed) (by simp only [genInit]; omega)
      (by rw [hbody])
    rw [hbody] at hrun
    have hst := Option.some.inj (hgen.symm.trans hrun)
    rw [hst]
    exact ⟨rfl, rfl⟩
  · have heog : env.llama_vocab_is_eog (env.llama_sampler_sample ing.fed []) = true := by
      rcases hfirst with h1 | h1
      · exact absurd h1 hstop
      · exact h1
    have hflag : ((genInit (tokenizePrompt env prompt).1 ing.fed).cancel_generation ||
        env.stop_called (genInit (tokenizePrompt env prompt).1 ing.fed).sampled.length) = false := by
      simpa [genInit] using hstop
    have hbody := genBody_eog env (genInit (tokenizePrompt env prompt).1 ing.fed) hflag heog
    have hrun := genLoop_first_step env (tokenizePrompt env prompt).1 256 256
      (genInit (tokenizePrompt env prompt).1 ing.fed) (by simp only [genInit]; omega)
      (by rw [hbody])
    rw [hbody] at hrun
    have hst := Option.some.inj (hgen.symm.trans hrun)
    rw [hst]
    exact ⟨rfl, rfl⟩

/-- The theorem of claim C6 at a call whose first sampled token ends the sequence. -/
theorem C6_witness :
    ∃ r, nativeGenerate (eogEngine 0) loadedSession "x" 0 0 0 = some r ∧
      r.assembled = true ∧
      r.ret = r.result ++ (eogEngine 0).stats_buf (tokenizePrompt (eogEngine 0) "x").1 r.gen_count ∧
      r.result = [] ∧ r.gen_count = 0 := by
  obtain ⟨r, _, hrun, _, hasm, _, _, _, _, hret, hempty⟩ :=
    C6_zero_budget_generates_with_default (eogEngine 0) loadedSession "x" 0 0 1 2 3
      { ok := true, n_eval := 1, fed := [[entryAt (fun i => 100 + (i : Int)) 1 0]] }
      rfl rfl rfl (by decide) rfl
  exact ⟨r, hrun, hasm, hret, hempty (Or.inr rfl)⟩

/-- Claim C7.  In a call that reaches result assembly with the callback available,
the fragments passed to the callback, concatenated in order, are the returned
bytes without the trailing stats marker, and no fragment is empty. -/
theorem C7_streamed_fragments_concatenate_to_text (env : Engine) (s : Session)
    (prompt : String) (max_tokens context_size threads : Int) (model vocab c : Handle)
    (ing : IngestOut)
    (hm : s.model = some model) (hv : s.vocab = some vocab)
    (hctx : env.llama_init_from_model model
      (contextParams context_size (tokenizePrompt env prompt).1 max_tokens threads) = some c)
    (hing : ingestLoop env (tokenizePrompt env prompt).2 (tokenizePrompt env prompt).1 512
      (tokenizePrompt env prompt).1.toNat 0 [] = some ing)
    (hok : ing.ok = true)
    (hcb : env.onTokenMethod = true) :
    ∃ r, nativeGenerate env s prompt max_tokens context_size threads = some r ∧
      r.assembled = true ∧
      r.ret = r.streamed.flatten ++ env.stats_buf (tokenizePrompt env prompt).1 r.gen_count ∧
      r.ret.take (r.ret.length - (env.stats_buf (tokenizePrompt env prompt).1 r.gen_count).length)
        = r.streamed.flatten ∧
      ∀ f ∈ r.streamed, f ≠ [] := by
  obtain ⟨st, hgen⟩ := genLoop_total env (tokenizePrompt env prompt).1 (nDecode max_tokens)
    (nDecode max_tokens + 1).toNat (genInit (tokenizePrompt env prompt).1 ing.fed)
    (by simp only [genInit]; omega)
  have hinv : StreamInv env st :=
    genLoop_invariant env _ _ (StreamInv env) (genBody_StreamInv env) _ _ _
      ⟨fun _ => rfl, fun f hf => by simp [genInit] at hf⟩ hgen
  obtain ⟨sess, _, h⟩ := nativeGenerate_assembled env s prompt max_tokens context_size
    threads model vocab c ing st hm hv hctx hing hok hgen
  have hflat : st.streamed.flatten = st.result := hinv.1 hcb
  refine ⟨_, h, rfl, ?_, ?_, hinv.2⟩
  · show st.result ++ _ = st.streamed.flatten ++ _
    rw [hflat]
  · show (st.result ++ _).take _ = st.streamed.flatten
    rw [hflat, List.length_append, Nat.add_sub_cancel, List.take_left]

/-- The theorem of claim C7 at a call that streams three fragments. -/
theorem C7_witness :
    ∃ r, nativeGenerate (stubEngine 1) loadedSession "x" 2 0 0 = some r ∧
      r.assembled = true ∧
      r.ret = r.streamed.flatten
        ++ (stubEngine 1).stats_buf (tokenizePrompt (stubEngine 1) "x").1 r.gen_count ∧
      r.ret.take (r.ret.length
          - ((stubEngine 1).stats_buf (tokenizePrompt (stubEngine 1) "x").1 r.gen_count).length)
        = r.streamed.flatten ∧
      ∀ f ∈ r.streamed, f ≠ [] :=
  C7_streamed_fragments_concatenate_to_text (stubEngine 1) loadedSession "x" 2 0 0 1 2 3
    { ok := true, n_eval := 1, fed := [[entryAt (fun i => 100 + (i : Int)) 1 0]] }
    rfl rfl rfl (by decide) rfl rfl

/-- In a record that ends with the failed forward pass, a failed pass is the last. -/
theorem failed_decode_is_last (env : Engine) (pre : List Batch) (b : Batch)
    (hpre : AllDecoded env pre) (k : Nat) :
    ∀ (fed : List Batch), fed = pre ++ [b] → ∀ (hlen : k < fed.length),
      env.llama_decode (fed.take k) fed[k] = false → fed.length = k + 1 := by
  intro fed hfed
  subst hfed
  intro hlen hfail
  by_cases hlt : k < pre.length
  · rw [AllDecoded_at_left env pre [b] hpre k hlt hlen] at hfail
    cases hfail
  · simp only [List.length_append, List.length_singleton] at hlen ⊢
    omega

/-- A chunk of a completed ingestion did not fail. -/
theorem decoded_chunk_did_not_fail (env : Engine) (ingested more : List Batch)
    (hing : AllDecoded env ingested) (k : Nat) (hk : k < ingested.length) :
    ∀ (fed : List Batch), fed = ingested ++ more → ∀ (hlen : k < fed.length),
      env.llama_decode (fed.take k) fed[k] = false → False := by
  intro fed hfed
  subst hfed
  intro hlen hfail
  rw [AllDecoded_at_left env ingested more hing k hk hlen] at hfail
  cases hfail

/-- Claim C8.  When the forward pass of chunk `k` of the prompt (the call `k` of
`llama_decode` in this call of `nativeGenerate`, chunk `k` existing because
`512 * k` is less than the prompt length) reports an error, it is the last batch
fed to the engine, no token is sampled, nothing is streamed, and the call returns
zero bytes without reaching result assembly. -/
theorem C8_failed_chunk_aborts_the_call (env : Engine) (s : Session)
    (prompt : String) (max_tokens context_size threads : Int) (k : Nat)
    (hk : (k : Int) * 512 < (tokenizePrompt env prompt).1) :
    ∃ r, nativeGenerate env s prompt max_tokens context_size threads = some r ∧
      ∀ (hlen : k < r.fed.length), env.llama_decode (r.fed.take k) r.fed[k] = false →
        r.fed.length = k + 1 ∧ r.sampled = [] ∧ r.streamed = [] ∧ r.ret = [] ∧
        r.assembled = false := by
  cases hm : s.model with
  | none =>
    refine ⟨_, nativeGenerate_not_loaded env s prompt _ _ _ (Or.inl hm), ?_⟩
    intro hlen
    simp [earlyReturn] at hlen
  | some model =>
    cases hv : s.vocab with
    | none =>
      refine ⟨_, nativeGenerate_not_loaded env s prompt _ _ _ (Or.inr hv), ?_⟩
      intro hlen
      simp [earlyReturn] at hlen
    | some vocab =>
      cases hctx : env.llama_init_from_model model
          (contextParams context_size (tokenizePrompt env prompt).1 max_tokens threads) with
      | none =>
        obtain ⟨sess, h⟩ := nativeGenerate_ctx_fail env s prompt max_tokens context_size threads
          model vocab hm hv hctx
        refine ⟨_, h, ?_⟩
        intro hlen
        simp [earlyReturn] at hlen
      | some c =>
        obtain ⟨ing, hing, hgood, hbad⟩ :=
          ingestLoop_spec env (tokenizePrompt env prompt).2 (tokenizePrompt env prompt).1 512
            (by norm_num) (tokenizePrompt env prompt).1.toNat 0 [] (by simp) (AllDecoded_nil env)
        cases hok : ing.ok with
        | false =>
          obtain ⟨sess, h⟩ := nativeGenerate_ingest_fail env s prompt max_tokens context_size
            threads model vocab c ing hm hv hctx hing hok
          obtain ⟨pre, b, hfed, hpre, _⟩ := hbad hok
          refine ⟨_, h, ?_⟩
          intro hlen hfail
          exact ⟨failed_decode_is_last env pre b hpre k ing.fed hfed hlen hfail,
            rfl, rfl, rfl, rfl⟩
        | true =>
          obtain ⟨st, hgen⟩ := genLoop_total env (tokenizePrompt env prompt).1
            (nDecode max_tokens) (nDecode max_tokens + 1).toNat
            (genInit (tokenizePrompt env prompt).1 ing.fed) (by simp only [genInit]; omega)
          obtain ⟨sess, _, h⟩ := nativeGenerate_assembled env s prompt max_tokens context_size
            threads model vocab c ing st hm hv hctx hing hok hgen
          obtain ⟨more, hmore⟩ := genLoop_fed env _ _ _ _ _ hgen
          obtain ⟨hall, hcover⟩ := hgood hok
          have hkin : k < ing.fed.length := by
            simp only [List.length_nil, Nat.cast_zero, sub_zero, zero_add] at hcover
            omega
          refine ⟨_, h, ?_⟩
          intro hlen hfail
          exact absurd hfail (fun hf =>
            decoded_chunk_did_not_fail env ing.fed more hall k hkin st.fed hmore hlen hf)

/-- The theorem of claim C8 at a prompt of 1100 tokens (three chunks) whose second
chunk fails: two batches are fed and the call returns zero bytes. -/
theorem C8_witness :
    ∃ r, nativeGenerate (secondDecodeFails 1100) loadedSession "x" 5 0 0 = some r ∧
      r.fed.length = 1 + 1 ∧ r.sampled = [] ∧ r.streamed = [] ∧ r.ret = [] ∧
      r.assembled = false := by
  obtain ⟨r, hrun, himp⟩ :=
    C8_failed_chunk_aborts_the_call (secondDecodeFails 1100) loadedSession "x" 5 0 0 1
      (by decide)
  have hlen2 : (nativeGenerate (secondDecodeFails 1100) loadedSession "x" 5 0 0).map
      (fun r => r.fed.length) = some 2 := by decide
  rw [hrun] at hlen2
  have hlen : r.fed.length = 2 := Option.some.inj hlen2
  have hfail : (secondDecodeFails 1100).llama_decode (r.fed.take 1) (r.fed[1]) = false := by
    simp [secondDecodeFails, List.length_take, hlen]
  exact ⟨r, hrun, himp (by omega) hfail⟩

/-- Claim C9 (the code departs from it).  When the load fails, `nativeLoadModel`
returns the status `Error: ...` and leaves `model`, `ctx` and `smpl` null, but it
leaves `vocab` as it was before the call: after an earlier successful load the
vocabulary pointer of the freed model is retained. -/
theorem C9_failed_load_keeps_previous_vocab (env : Engine) (s : Session) (model_path : String)
    (hfail : env.llama_model_load_from_file model_path = none) :
    (nativeLoadModel env s model_path).2 = "Error: 模型讀取失敗" ∧
    (nativeLoadModel env s model_path).2.data.take 6 = "Error:".data ∧
    (nativeLoadModel env s model_path).1.model = none ∧
    (nativeLoadModel env s model_path).1.ctx = none ∧
    (nativeLoadModel env s model_path).1.smpl = none ∧
    (nativeLoadModel env s model_path).1.vocab = s.vocab := by
  have hrun : nativeLoadModel env s model_path
      = ({ releaseHandles s with model := none }, "Error: 模型讀取失敗") := by
    unfold nativeLoadModel
    simp only [hfail]
  rw [hrun]
  have hstatus : "Error: 模型讀取失敗".data.take 6 = "Error:".data := by decide
  obtain ⟨m0, c0, p0, v0, f0, fr0⟩ := s
  cases m0 <;> cases c0 <;> cases p0 <;> exact ⟨rfl, hstatus, rfl, rfl, rfl, rfl⟩

/-- The theorem of claim C9 at the session left by a successful load and a
successful generate: the failed load leaves `vocab = some 2`. -/
theorem C9_witness :
    (nativeLoadModel (stubEngine 1) freshSession "model.gguf").1 = loadedSession ∧
    (nativeGenerate (stubEngine 1) loadedSession "x" 1 0 0).map (fun r => r.session)
      = some usedSession ∧
    (nativeLoadModel (stubEngine 1) usedSession "missing.gguf").2 = "Error: 模型讀取失敗" ∧
    (nativeLoadModel (stubEngine 1) usedSession "missing.gguf").1.model = none ∧
    (nativeLoadModel (stubEngine 1) usedSession "missing.gguf").1.vocab = some 2 :=
  have h := C9_failed_load_keeps_previous_vocab (stubEngine 1) usedSession "missing.gguf"
    (by decide)
  ⟨by decide, by decide, h.1, h.2.2.1, h.2.2.2.2.2⟩

/-- Claim C10 (the code departs from it).  With a requested context of `3`, a prompt
of one token and `max_tokens = 2`, the call configures a window of `n_ctx = 3`
positions and then passes a batch at position `3` to `llama_decode`, although the
engine fails every forward pass that holds a position outside the window. -/
theorem C10_position_outside_window_is_fed :
    ∃ r, nativeGenerate (windowEngine 3) loadedSession "x" 2 3 0 = some r ∧
      r.n_ctx = some 3 ∧
      r.fed.map (fun b => b.map (fun e => e.pos)) = [[0], [1], [2], [3]] ∧
      r.sampled = [7, 7, 7] ∧ r.gen_count = 2 :=
  ⟨_, rfl, rfl, rfl, rfl, rfl⟩

end CloverLlama
